import Mathlib

/-!
Verification of the field-classification and cleaning engine of
`src/app.py` (Talk upload cleaner).

Python strings are modelled as lists of Unicode code points (`List Nat`);
pandas cell values are `Option (List Nat)` with `none` standing for an
absent (NaN) value.  Each Lean definition mirrors one Python function of
the source file; helper predicates spell out the character classes that
the source's regular expressions denote.
-/

/-- Code points of a Lean string literal; used to write concrete Python
string values in statements. -/
def codes (s : String) : List Nat := s.data.map Char.toNat

/-- Decimal rendering of a natural number as code points (Python
`str(n)` inside f-strings). -/
def natCodes (n : Nat) : List Nat := codes (Nat.repr n)

/-- Python whitespace (`str.isspace`, `str.strip`, and `\s` of the `re`
module agree on this set: CPython implements all three via
`Py_UNICODE_ISSPACE`). -/
def ws (n : Nat) : Bool :=
  decide ((9 ≤ n ∧ n ≤ 13) ∨ (28 ≤ n ∧ n ≤ 32) ∨ n = 133 ∨ n = 160 ∨
    n = 5760 ∨ (8192 ≤ n ∧ n ≤ 8202) ∨ n = 8232 ∨ n = 8233 ∨
    n = 8239 ∨ n = 8287 ∨ n = 12288)

/-- The zero-width/format code points removed by
`INVISIBLE_CHARS_PATTERN` (BOM, ZWSP, ZWNJ, ZWJ, word joiner, soft
hyphen). -/
def invisible (n : Nat) : Bool :=
  decide (n = 65279 ∨ n = 8203 ∨ n = 8204 ∨ n = 8205 ∨ n = 8288 ∨ n = 173)

/-- `remove_invisibles`: NBSP (U+00A0) and narrow no-break space
(U+202F) become an ordinary space, then the invisible set is deleted. -/
def remove_invisibles (l : List Nat) : List Nat :=
  (l.map (fun n => if n = 160 ∨ n = 8239 then 32 else n)).filter
    (fun n => !invisible n)

/-- Python `str.lstrip()` on our whitespace set. -/
def trimLeft (l : List Nat) : List Nat := l.dropWhile ws

/-- Python `str.rstrip()` on our whitespace set. -/
def trimRight (l : List Nat) : List Nat := (l.reverse.dropWhile ws).reverse

/-- Python `str.strip()`. -/
def pyStrip (l : List Nat) : List Nat := trimRight (trimLeft l)

/-- Scanner for `collapse_spaces`.  The flag records that the scanner is
inside a whitespace run whose first two characters have already been
replaced by the single space: the remaining characters of the run are
dropped.  With the flag off, a character followed by a second whitespace
character opens a run (emitting the single space); any other character —
including an isolated whitespace character — is copied unchanged. -/
def csGo : Bool → List Nat → List Nat
  | _, [] => []
  | true, a :: t => if ws a then csGo true t else a :: csGo false t
  | false, [a] => [a]
  | false, a :: b :: t =>
    if ws a && ws b then 32 :: csGo true t else a :: csGo false (b :: t)

/-- `collapse_spaces`: `re.sub(r"\s{2,}", " ", s)` — every maximal run
of two or more whitespace code points becomes a single ASCII space;
an isolated whitespace character is left as it is. -/
def collapse_spaces (l : List Nat) : List Nat := csGo false l

/-- NFKD decomposition table modelling `unicodedata.normalize("NFKD", ·)`,
restricted to a representative set of characters (Spanish accented
letters, NBSP, a typographic space); characters without a listed
decomposition decompose to themselves, as in Unicode. -/
def nfkdTable : List (Nat × List Nat) :=
  [ (0xE1, [0x61, 0x301]), (0xE9, [0x65, 0x301]), (0xED, [0x69, 0x301]),
    (0xF3, [0x6F, 0x301]), (0xFA, [0x75, 0x301]), (0xF1, [0x6E, 0x303]),
    (0xFC, [0x75, 0x308]),
    (0xC1, [0x41, 0x301]), (0xC9, [0x45, 0x301]), (0xCD, [0x49, 0x301]),
    (0xD3, [0x4F, 0x301]), (0xDA, [0x55, 0x301]), (0xD1, [0x4E, 0x303]),
    (0xDC, [0x55, 0x308]),
    (0xA0, [0x20]), (0x2002, [0x20]) ]

/-- Decomposition of one code point. -/
def nfkdChar (n : Nat) : List Nat := (nfkdTable.lookup n).getD [n]

/-- Combining marks (`unicodedata.combining(ch) != 0`), restricted to the
Combining Diacritical Marks block, which covers every mark produced by
`nfkdTable`. -/
def combining (n : Nat) : Bool := 768 ≤ n && n ≤ 879

/-- `strip_accents`: NFKD-decompose, then drop all combining marks. -/
def strip_accents (l : List Nat) : List Nat :=
  ((l.map nfkdChar).flatten).filter (fun n => !combining n)

/-- The `DISALLOWED_SIGNS` character class: `, . - $ % # ( ) /`. -/
def disallowed (n : Nat) : Bool :=
  decide (n = 44 ∨ n = 46 ∨ n = 45 ∨ n = 36 ∨ n = 37 ∨ n = 35 ∨
    n = 40 ∨ n = 41 ∨ n = 47)

/-- ASCII digit (`[0-9]`). -/
def isDig (n : Nat) : Bool := decide (48 ≤ n ∧ n ≤ 57)

/-- ASCII letter (`[A-Za-z]`). -/
def isAlphaCode (n : Nat) : Bool :=
  decide ((65 ≤ n ∧ n ≤ 90) ∨ (97 ≤ n ∧ n ≤ 122))

/-- ASCII alphanumeric (`[A-Za-z0-9]`). -/
def isAlnumCode (n : Nat) : Bool := isDig n || isAlphaCode n

/-- Python `str.lower` on one code point (exact on the ASCII range, the
only cased characters the cleaned pipeline can produce). -/
def toLowerCode (n : Nat) : Nat := if 65 ≤ n ∧ n ≤ 90 then n + 32 else n

/-- Python upper-casing of one code point (ASCII range). -/
def toUpperCode (n : Nat) : Nat := if 97 ≤ n ∧ n ≤ 122 then n - 32 else n

/-- A cased code point in the sense of `str.title` (ASCII range). -/
def isCased (n : Nat) : Bool := isAlphaCode n

/-- Python `str.lower` on a string. -/
def pyLower (l : List Nat) : List Nat := l.map toLowerCode

/-- Python `str.title`: a cased character is upper-cased when the
previous character was not cased and lower-cased otherwise; `prev`
records whether the previous character was cased. -/
def pyTitleGo (prev : Bool) : List Nat → List Nat
  | [] => []
  | c :: t =>
    (if isCased c then (if prev then toLowerCode c else toUpperCode c) else c)
      :: pyTitleGo (isCased c) t

/-- `nompropio_like_excel`: `s.lower().title()`. -/
def nompropio_like_excel (l : List Nat) : List Nat := pyTitleGo false (pyLower l)

/-- The stripping both cleaners start with:
`remove_invisibles(str(val)).strip()`. -/
def baseStrip (v : List Nat) : List Nat := pyStrip (remove_invisibles v)

/-- `re.sub(f"[{DISALLOWED_SIGNS}]", " ", s)`. -/
def scrub_signs (l : List Nat) : List Nat :=
  l.map (fun n => if disallowed n then 32 else n)

/-- `re.sub(r"[^A-Za-z0-9\s]", " ", s)`. -/
def scrub_other (l : List Nat) : List Nat :=
  l.map (fun n => if isAlnumCode n || ws n then n else 32)

/-- The middle of `clean_text_general`: accent strip, the two
substitutions, space collapsing, final trim. -/
def ctg_scrub (l : List Nat) : List Nat :=
  pyStrip (collapse_spaces (scrub_other (scrub_signs (strip_accents l))))

/-- `clean_text_general` (rules 1–3 for free text). -/
def clean_text_general (apply_nompropio : Bool) (val : Option (List Nat)) :
    List Nat :=
  match val with
  | none => []
  | some v =>
    if baseStrip v = [] then []
    else if apply_nompropio ∧ ctg_scrub (baseStrip v) ≠ [] then
      nompropio_like_excel (ctg_scrub (baseStrip v))
    else ctg_scrub (baseStrip v)

/-- Python `str.split(sep)` for a one-character separator (keeps empty
parts; the empty string splits to one empty part). -/
def pySplit (sep : Nat) : List Nat → List (List Nat)
  | [] => [[]]
  | c :: t =>
    if c = sep then [] :: pySplit sep t
    else
      match pySplit sep t with
      | [] => [[c]]
      | h :: r => (c :: h) :: r

/-- The stage of `clean_numeric_general` before the multi-period fixup:
strip, delete all internal whitespace, turn commas into periods, keep
only digits, period, plus and minus. -/
def numeric_prefilter (v : List Nat) : List Nat :=
  ((((baseStrip v).filter (fun n => !ws n)).map
      (fun n => if n = 44 then 46 else n)).filter
    (fun n => isDig n || n == 46 || n == 43 || n == 45))

/-- The multi-period fixup of `clean_numeric_general`:
`parts = s.split("."); s = parts[0] + "." + "".join(parts[1:])` when
more than one period remains. -/
def fix_periods (s : List Nat) : List Nat :=
  if 1 < s.count 46 then
    (pySplit 46 s).headD [] ++ 46 :: (pySplit 46 s).tail.flatten
  else s

/-- `clean_numeric_general` (cleaning for numeric columns). -/
def clean_numeric_general (val : Option (List Nat)) : List Nat :=
  match val with
  | none => []
  | some v =>
    if baseStrip v = [] then []
    else if fix_periods (numeric_prefilter v) = [43] ∨
        fix_periods (numeric_prefilter v) = [45] ∨
        fix_periods (numeric_prefilter v) = [46] ∨
        fix_periods (numeric_prefilter v) = [43, 46] ∨
        fix_periods (numeric_prefilter v) = [45, 46] then []
    else fix_periods (numeric_prefilter v)

/-- The compacted value `re.sub(r"\s+", "", s)` that `clean_country_code`
inspects. -/
def cc_compact (v : List Nat) : List Nat :=
  (baseStrip v).filter (fun n => !ws n)

/-- `clean_country_code` (indicativo país): early return on a blank
value, then keep the digits and re-prepend `+` iff the compacted value
started with it. -/
def clean_country_code (val : Option (List Nat)) : List Nat :=
  match val with
  | none => []
  | some v =>
    if baseStrip v = [] then []
    else if (cc_compact v).filter isDig = [] then []
    else if (cc_compact v).head? = some 43 then 43 :: (cc_compact v).filter isDig
    else (cc_compact v).filter isDig

/-- `clean_apto_keep_inner_spaces` (rule 4: apartment/unit). -/
def clean_apto_keep_inner_spaces (val : Option (List Nat)) : List Nat :=
  match val with
  | none => []
  | some v =>
    let s := pyStrip (remove_invisibles v)
    if s = [] then [] else
    let s := strip_accents s
    let s := s.filter (fun n => !disallowed n)
    s.filter (fun n => isAlnumCode n || ws n)

/-- Local-part characters of `EMAIL_RE`: `[A-Za-z0-9._%+-]`. -/
def emailLocalChar (n : Nat) : Bool :=
  isAlnumCode n || decide (n = 46 ∨ n = 95 ∨ n = 37 ∨ n = 43 ∨ n = 45)

/-- Domain characters of `EMAIL_RE`: `[A-Za-z0-9.-]`. -/
def emailDomainChar (n : Nat) : Bool :=
  isAlnumCode n || decide (n = 46 ∨ n = 45)

/-- Full match against `EMAIL_RE`
(`^[A-Za-z0-9._%+-]+@[A-Za-z0-9.-]+\.[A-Za-z]{2,}$`): one `@` splitting a
non-empty all-local-char part from a domain whose text after its last
period is a TLD of at least two letters, with a non-empty domain body. -/
def emailMatch (l : List Nat) : Bool :=
  match pySplit 64 l with
  | [loc, dom] =>
    !loc.isEmpty && loc.all emailLocalChar &&
    (let tld := (dom.reverse.takeWhile (fun n => n ≠ 46)).reverse
     tld.length < dom.length &&
     (let body := dom.take (dom.length - tld.length - 1)
      !body.isEmpty && body.all emailDomainChar &&
      2 ≤ tld.length && tld.all isAlphaCode))
  | _ => false

/-- The candidate `raw.replace(" ", "")` that the email regex is run
on (only the ASCII space U+0020 is removed). -/
def email_compact (v : List Nat) : List Nat :=
  (baseStrip v).filter (fun n => n ≠ 32)

/-- `clean_email_one` (rule 5): empty cell, separator detection, single
strict extraction. -/
def clean_email_one (val : Option (List Nat)) : List Nat × Option (List Nat) :=
  match val with
  | none => ([], some (codes "Correo vacío"))
  | some v =>
    if pyStrip v = [] then ([], some (codes "Correo vacío"))
    else if (baseStrip v).any (fun n => n == 59 || n == 44 || n == 47 || n == 124) then
      ([], some (codes "Más de un correo o separadores detectados"))
    else if emailMatch (email_compact v) then (pyLower (email_compact v), none)
    else ([], some (codes "Correo inválido"))

/-- `validate_len`: length-cap diagnostic. -/
def validate_len (s : List Nat) (max_len : Nat) : Option (List Nat) :=
  if max_len < s.length then
    some (codes ("Supera " ++ Nat.repr max_len ++ " caracteres (tiene " ++
      Nat.repr s.length ++ ")"))
  else none

/-- The permissive numeric pattern `NUM_LIKE_RE`: an optional sign or
whitespace character followed by at least one character that is a digit,
whitespace, or one of `. , * % $ # ( )`, slash, hyphen. -/
def numNoiseChar (n : Nat) : Bool :=
  isDig n || ws n || decide (n = 46 ∨ n = 44 ∨ n = 42 ∨ n = 37 ∨ n = 36 ∨
    n = 35 ∨ n = 40 ∨ n = 41 ∨ n = 47 ∨ n = 45)

/-- Full match of `NUM_LIKE_RE` (the match is anchored at both ends: the
value it is applied to has been stripped, so `$` is a true end
anchor). -/
def numLikeMatch (l : List Nat) : Bool :=
  match l with
  | [] => false
  | c :: t =>
    (numNoiseChar c && t.all numNoiseChar) ||
    ((ws c || c == 43 || c == 45) && !t.isEmpty && t.all numNoiseChar)

/-- `is_numeric_like_value` on a single (non-absent) value. -/
def is_numeric_like_value (v : List Nat) : Bool :=
  let s := pyStrip (remove_invisibles v)
  !s.isEmpty && numLikeMatch s

/-- The sample of `detect_numeric_columns` / `detect_country_code_columns`:
the first `sample_size` non-absent values of the column. -/
def columnSample (values : List (Option (List Nat))) (sample_size : Nat) :
    List (List Nat) :=
  (values.filterMap id).take sample_size

/-- The values of the sample that are tested (non-blank after
stripping), each in its stripped form, exactly as the loop variable `v`
after `v = v.strip()`. -/
def testedValues (values : List (Option (List Nat))) (sample_size : Nat) :
    List (List Nat) :=
  ((columnSample values sample_size).map pyStrip).filter
    (fun v => !v.isEmpty)

/-- `detect_numeric_columns`, restricted to one column: the column is
numeric-classified iff it has a non-absent value, a tested value, and the
pass fraction of `is_numeric_like_value` over the tested values reaches
the threshold.  With the default threshold `0.85` (and a sample of at
most 80 values) the float comparison `good / total >= 0.85` of the
source coincides with the exact comparison `20 * good ≥ 17 * total`. -/
def detect_numeric_column (values : List (Option (List Nat))) : Bool :=
  !(values.filterMap id).isEmpty &&
  decide (0 < (testedValues values 80).length) &&
  decide (17 * (testedValues values 80).length ≤
    20 * ((testedValues values 80).filter is_numeric_like_value).length)

/-- Full match of `\+?\d{1,4}`: an optional leading plus and one to four
digits. -/
def ccPattern (l : List Nat) : Bool :=
  let d := if l.head? = some 43 then l.tail else l
  !d.isEmpty && d.length ≤ 4 && d.all isDig

/-- `looks_like_country_code_value` on a single (non-absent) value. -/
def looks_like_country_code_value (v : List Nat) : Bool :=
  let s := pyStrip (remove_invisibles v)
  !s.isEmpty && (ccPattern s || ccPattern (s.filter (fun n => !ws n)))

/-- The country-code name keywords of `detect_country_code_columns`. -/
def ccKeywords : List (List Nat) :=
  [codes "indicativo", codes "codigo pais", codes "código pais",
   codes "pais", codes "country code", codes "código país"]

/-- The name heuristic: the stripped, lower-cased column name contains
one of the keywords. -/
def cc_name_hit (name : List Nat) : Bool :=
  ccKeywords.any (fun k => decide (k <:+: pyLower (pyStrip name)))

/-- The value heuristic of `detect_country_code_columns`: at least one
tested value and a pass fraction of at least `0.75` (the threshold
`0.75` is a dyadic rational, so the float comparison of the source is
the exact comparison `4 * good ≥ 3 * total`). -/
def cc_value_hit (values : List (Option (List Nat))) : Bool :=
  decide (0 < (testedValues values 80).length) &&
  decide (3 * (testedValues values 80).length ≤
    4 * ((testedValues values 80).filter looks_like_country_code_value).length)

/-- `detect_country_code_columns`, restricted to one column.  A column
whose values are all absent is skipped (`if series.empty: continue`)
before either heuristic is consulted. -/
def detect_country_code_column (name : List Nat)
    (values : List (Option (List Nat))) : Bool :=
  if (values.filterMap id).isEmpty then false
  else cc_name_hit name || cc_value_hit values

/-- The per-run configuration of the row-cleaning loop: the two detected
column sets (as membership predicates on column names), the explicitly
selected apartment and email columns (`none` models the "(Ninguna)"
sentinel of the select boxes), the length-capped columns, and the two
checkboxes. -/
structure CleanConfig where
  cc : List Nat → Bool
  num : List Nat → Bool
  apt : Option (List Nat)
  email : Option (List Nat)
  max30 : List (List Nat)
  truncate : Bool
  proper : Bool

/-- The five semantic roles of the engine. -/
inductive Role where
  | countryCode
  | apartment
  | email
  | numeric
  | genericText
deriving DecidableEq

/-- Whether a role's guard holds for a column (the conditions of the
if-chain of the row loop; GenericText is the unconditional default). -/
def role_applies (cfg : CleanConfig) (c : List Nat) : Role → Bool
  | .countryCode => cfg.cc c
  | .apartment => decide (cfg.apt = some c)
  | .email => decide (cfg.email = some c)
  | .numeric => cfg.num c
  | .genericText => true

/-- The precedence order of the specification, highest first. -/
def rolePrecedence : List Role :=
  [.countryCode, .apartment, .email, .numeric, .genericText]

/-- Modelled from the spec: resolve a column's cleaner as the first role
of the precedence list whose guard holds. -/
def resolve_role (cfg : CleanConfig) (c : List Nat) : Role :=
  (rolePrecedence.find? (role_applies cfg c)).getD .genericText

/-- The cleaner belonging to a role, as invoked by the row loop; only
the email cleaner can return a diagnostic. -/
def apply_role (proper : Bool) : Role → Option (List Nat) → List Nat × Option (List Nat)
  | .countryCode, v => (clean_country_code v, none)
  | .apartment, v => (clean_apto_keep_inner_spaces v, none)
  | .email, v => clean_email_one v
  | .numeric, v => (clean_numeric_general v, none)
  | .genericText, v => (clean_text_general proper v, none)

/-- One cell of the row loop: the if-chain of the `st.button` block
choosing among the five cleaners. -/
def clean_cell (cfg : CleanConfig) (c : List Nat) (val : Option (List Nat)) :
    List Nat × Option (List Nat) :=
  if cfg.cc c then (clean_country_code val, none)
  else if cfg.apt = some c then (clean_apto_keep_inner_spaces val, none)
  else if cfg.email = some c then clean_email_one val
  else if cfg.num c then (clean_numeric_general val, none)
  else (clean_text_general cfg.proper val, none)

/-- A row diagnostic `f"{c}: {e}"`. -/
def colErr (c e : List Nat) : List Nat := c ++ codes ": " ++ e

/-- The first pass of the row loop: clean every cell, collect the cleaned
values (keyed by column name) and the per-column diagnostics in column
order. -/
def clean_cells (cfg : CleanConfig) (cols : List (List Nat))
    (row : List (Option (List Nat))) :
    List (List Nat × List Nat) × List (List Nat) :=
  ((cols.zip row).map (fun p => (p.1, (clean_cell cfg p.1 p.2).1)),
   (cols.zip row).filterMap (fun p => (clean_cell cfg p.1 p.2).2.map (colErr p.1)))

/-- Reading a cleaned cell by column name (`df_clean.at[idx, c]`; cleaned
cells are always strings, so the `pd.isna` branch of line 346 yields the
empty string only for a name that is absent, which the multiselect
excludes). -/
def lookupVal (assoc : List (List Nat × List Nat)) (c : List Nat) : List Nat :=
  ((assoc.find? (fun p => p.1 == c)).map (fun p => p.2)).getD []

/-- Writing a cleaned cell by column name. -/
def assocUpdate (assoc : List (List Nat × List Nat)) (c v : List Nat) :
    List (List Nat × List Nat) :=
  assoc.map (fun p => if p.1 == c then (p.1, v) else p)

/-- One iteration of the rule-6 loop (`for c in max30_cols`): check the
already-cleaned value of column `c` against the cap of 30, truncating it
when the checkbox is set, and record the diagnostic. -/
def len_cap_step (truncate : Bool)
    (st : List (List Nat × List Nat) × List (List Nat)) (c : List Nat) :
    List (List Nat × List Nat) × List (List Nat) :=
  match validate_len (lookupVal st.1 c) 30 with
  | none => st
  | some m =>
    ((if truncate then assocUpdate st.1 c ((lookupVal st.1 c).take 30) else st.1),
     st.2 ++ [colErr c m])

/-- One full row of the cleaning loop: the per-column cleaner pass
followed by the length-cap pass over the designated columns. -/
def clean_row (cfg : CleanConfig) (cols : List (List Nat))
    (row : List (Option (List Nat))) :
    List (List Nat × List Nat) × List (List Nat) :=
  cfg.max30.foldl (len_cap_step cfg.truncate) (clean_cells cfg cols row)

/-- Join a list of diagnostics with `" | "`. -/
def joinErrs : List (List Nat) → List Nat
  | [] => []
  | [e] => e
  | e :: t => e ++ codes " | " ++ joinErrs t

/-- The error-report record of one row: emitted only when the row's
error list is non-empty, keyed by the spreadsheet row number
`idx + 2`. -/
def emit_row_error (idx : Nat) (errs : List (List Nat)) :
    Option (Nat × List Nat) :=
  if errs = [] then none else some (idx + 2, joinErrs errs)

/-- Whether a string's first character is whitespace. -/
def headWs (l : List Nat) : Bool :=
  match l with
  | [] => false
  | a :: _ => ws a

/-- Whether a string's last character is whitespace. -/
def lastWs (l : List Nat) : Bool :=
  match l.getLast? with
  | some a => ws a
  | none => false

/-- No two adjacent whitespace characters. -/
def noDoubleWs : List Nat → Bool
  | [] => true
  | [_] => true
  | a :: b :: t => (!(ws a && ws b)) && noDoubleWs (b :: t)

/-- The characters that the generic-text cleaner can emit: ASCII
alphanumerics and whitespace characters that are fixed points of the
normalization primitives. -/
def goodChar (n : Nat) : Prop :=
  (isAlnumCode n = true ∨ ws n = true) ∧ nfkdTable.lookup n = none ∧
    n ≠ 160 ∧ n ≠ 8239

/-! ### Character-class arithmetic -/

theorem ws_32 : ws 32 = true := by decide

theorem isAlnum_not_ws {n : Nat} (h : isAlnumCode n = true) : ws n = false := by
  simp only [isAlnumCode, isDig, isAlphaCode, Bool.or_eq_true,
    decide_eq_true_eq] at h
  simp only [ws, decide_eq_false_iff_not]
  omega

theorem class_not_disallowed {n : Nat}
    (h : isAlnumCode n = true ∨ ws n = true) : disallowed n = false := by
  simp only [isAlnumCode, isDig, isAlphaCode, ws, Bool.or_eq_true,
    decide_eq_true_eq] at h
  simp only [disallowed, decide_eq_false_iff_not]
  omega

theorem class_not_invisible {n : Nat}
    (h : isAlnumCode n = true ∨ ws n = true) : invisible n = false := by
  simp only [isAlnumCode, isDig, isAlphaCode, ws, Bool.or_eq_true,
    decide_eq_true_eq] at h
  simp only [invisible, decide_eq_false_iff_not]
  omega

theorem class_not_combining {n : Nat}
    (h : isAlnumCode n = true ∨ ws n = true) : combining n = false := by
  simp only [isAlnumCode, isDig, isAlphaCode, ws, Bool.or_eq_true,
    decide_eq_true_eq] at h
  simp only [combining, decide_eq_false_iff_not, Bool.and_eq_false_iff]
  omega

/-! ### Trim and strip -/

theorem trimLeft_mem {l : List Nat} {n : Nat} (h : n ∈ trimLeft l) : n ∈ l :=
  (List.dropWhile_sublist ws).subset h

theorem trimRight_mem {l : List Nat} {n : Nat} (h : n ∈ trimRight l) : n ∈ l := by
  simp only [trimRight, List.mem_reverse] at h
  exact List.mem_reverse.mp ((List.dropWhile_sublist ws).subset h)

theorem pyStrip_mem {l : List Nat} {n : Nat} (h : n ∈ pyStrip l) : n ∈ l :=
  trimLeft_mem (trimRight_mem h)

theorem filter_trimLeft {p : Nat → Bool}
    (hp : ∀ a, ws a = true → p a = false) (l : List Nat) :
    (trimLeft l).filter p = l.filter p := by
  conv_rhs => rw [← List.takeWhile_append_dropWhile ws l]
  rw [List.filter_append]
  have h0 : (l.takeWhile ws).filter p = [] :=
    List.filter_eq_nil_iff.mpr fun a ha => by
      simp [hp a (List.mem_takeWhile_imp ha)]
  rw [h0, List.nil_append]
  rfl

theorem filter_trimRight {p : Nat → Bool}
    (hp : ∀ a, ws a = true → p a = false) (l : List Nat) :
    (trimRight l).filter p = l.filter p := by
  unfold trimRight
  rw [List.filter_reverse]
  rw [show (l.reverse.dropWhile ws) = trimLeft l.reverse from rfl]
  rw [filter_trimLeft hp l.reverse, List.filter_reverse, List.reverse_reverse]

theorem filter_pyStrip {p : Nat → Bool}
    (hp : ∀ a, ws a = true → p a = false) (l : List Nat) :
    (pyStrip l).filter p = l.filter p := by
  unfold pyStrip
  rw [filter_trimRight hp, filter_trimLeft hp]

theorem headWs_trimLeft (l : List Nat) : headWs (trimLeft l) = false := by
  have h := List.head?_dropWhile_not ws l
  unfold headWs trimLeft
  cases hd : l.dropWhile ws with
  | nil => rfl
  | cons a t => rw [hd] at h; simpa using h

theorem lastWs_trimRight (l : List Nat) : lastWs (trimRight l) = false := by
  unfold lastWs trimRight
  rw [List.getLast?_reverse]
  have h := List.head?_dropWhile_not ws l.reverse
  cases hd : (l.reverse.dropWhile ws).head? with
  | none => rfl
  | some a => rw [hd] at h; simpa using h

theorem trimRight_eq_append (l : List Nat) : ∃ t, l = trimRight l ++ t := by
  obtain ⟨t, ht⟩ := @List.dropWhile_suffix Nat l.reverse ws
  refine ⟨t.reverse, ?_⟩
  unfold trimRight
  have : l.reverse.reverse = (t ++ l.reverse.dropWhile ws).reverse := by
    rw [ht]
  rw [List.reverse_reverse, List.reverse_append] at this
  exact this

theorem headWs_pyStrip (l : List Nat) : headWs (pyStrip l) = false := by
  obtain ⟨t, ht⟩ := trimRight_eq_append (trimLeft l)
  have h := headWs_trimLeft l
  unfold pyStrip
  cases hd : trimRight (trimLeft l) with
  | nil => rfl
  | cons a s =>
    rw [hd, List.cons_append] at ht
    rw [ht] at h
    simpa [headWs] using h

theorem lastWs_pyStrip (l : List Nat) : lastWs (pyStrip l) = false :=
  lastWs_trimRight (trimLeft l)

theorem pyStrip_eq_nil_iff (l : List Nat) :
    pyStrip l = [] ↔ ∀ a ∈ l, ws a = true := by
  unfold pyStrip trimRight
  rw [List.reverse_eq_nil_iff, List.dropWhile_eq_nil_iff]
  constructor
  · intro h a ha
    rw [← List.takeWhile_append_dropWhile ws l] at ha
    rcases List.mem_append.mp ha with h1 | h2
    · exact List.mem_takeWhile_imp h1
    · exact h a (List.mem_reverse.mpr h2)
  · intro h a ha
    exact h a (trimLeft_mem (List.mem_reverse.mp ha))

theorem trimLeft_eq_self {l : List Nat} (h : headWs l = false) :
    trimLeft l = l := by
  unfold trimLeft
  cases l with
  | nil => rfl
  | cons a t =>
    simp only [headWs] at h
    rw [List.dropWhile_cons, h]
    simp

theorem trimRight_eq_self {l : List Nat} (h : lastWs l = false) :
    trimRight l = l := by
  unfold trimRight
  have hh : headWs l.reverse = false := by
    unfold lastWs at h
    unfold headWs
    cases hd : l.reverse with
    | nil => rfl
    | cons a t =>
      have : l.getLast? = some a := by
        rw [← List.head?_reverse, hd]; rfl
      rw [this] at h
      exact h
  rw [show l.reverse.dropWhile ws = trimLeft l.reverse from rfl,
    trimLeft_eq_self hh, List.reverse_reverse]

theorem pyStrip_eq_self {l : List Nat} (h1 : headWs l = false)
    (h2 : lastWs l = false) : pyStrip l = l := by
  unfold pyStrip
  rw [trimLeft_eq_self h1, trimRight_eq_self h2]

/-! ### remove_invisibles -/

theorem remove_invisibles_mem {v : List Nat} {n : Nat}
    (h : n ∈ remove_invisibles v) :
    invisible n = false ∧ n ≠ 160 ∧ n ≠ 8239 ∧ (n ∈ v ∨ n = 32) := by
  unfold remove_invisibles at h
  obtain ⟨hmem, hinv⟩ := List.mem_filter.mp h
  obtain ⟨m, hm, hfm⟩ := List.mem_map.mp hmem
  by_cases hc : m = 160 ∨ m = 8239
  · rw [if_pos hc] at hfm
    subst hfm
    exact ⟨by simpa using hinv, by omega, by omega, Or.inr rfl⟩
  · rw [if_neg hc] at hfm
    subst hfm
    push_neg at hc
    exact ⟨by simpa using hinv, hc.1, hc.2, Or.inl hm⟩

theorem remove_invisibles_allWs {v : List Nat} (h : ∀ a ∈ v, ws a = true) :
    ∀ a ∈ remove_invisibles v, ws a = true := by
  intro a ha
  rcases (remove_invisibles_mem ha).2.2.2 with hv | h32
  · exact h a hv
  · subst h32; exact ws_32

theorem pyStrip_remove_invisibles_nil {v : List Nat} (h : pyStrip v = []) :
    pyStrip (remove_invisibles v) = [] :=
  (pyStrip_eq_nil_iff _).mpr
    (remove_invisibles_allWs ((pyStrip_eq_nil_iff v).mp h))

/-! ### Digit-subsequence preservation -/

theorem remove_invisibles_cons_nbsp {n : Nat} (hc : n = 160 ∨ n = 8239)
    (t : List Nat) : remove_invisibles (n :: t) = 32 :: remove_invisibles t := by
  unfold remove_invisibles
  rw [List.map_cons, if_pos hc, List.filter_cons_of_pos (by decide)]

theorem remove_invisibles_cons_inv {n : Nat} (hc : ¬(n = 160 ∨ n = 8239))
    (hi : invisible n = true) (t : List Nat) :
    remove_invisibles (n :: t) = remove_invisibles t := by
  unfold remove_invisibles
  rw [List.map_cons, if_neg hc, List.filter_cons_of_neg (by simp [hi])]

theorem remove_invisibles_cons_keep {n : Nat} (hc : ¬(n = 160 ∨ n = 8239))
    (hi : invisible n = false) (t : List Nat) :
    remove_invisibles (n :: t) = n :: remove_invisibles t := by
  unfold remove_invisibles
  rw [List.map_cons, if_neg hc, List.filter_cons_of_pos (by simp [hi])]

theorem invisible_not_isDig {n : Nat} (h : invisible n = true) :
    isDig n = false := by
  simp only [invisible, decide_eq_true_eq] at h
  simp only [isDig, decide_eq_false_iff_not]
  omega

theorem isDig_not_ws {n : Nat} (h : isDig n = true) : ws n = false := by
  simp only [isDig, decide_eq_true_eq] at h
  simp only [ws, decide_eq_false_iff_not]
  omega

theorem ws_not_isDig {n : Nat} (h : ws n = true) : isDig n = false := by
  simp only [ws, decide_eq_true_eq] at h
  simp only [isDig, decide_eq_false_iff_not]
  omega

theorem filter_isDig_remove_invisibles (v : List Nat) :
    (remove_invisibles v).filter isDig = v.filter isDig := by
  induction v with
  | nil => rfl
  | cons n t ih =>
    by_cases hc : n = 160 ∨ n = 8239
    · rw [remove_invisibles_cons_nbsp hc, List.filter_cons_of_neg (by decide),
        List.filter_cons_of_neg
          (by rcases hc with h | h <;> subst h <;> decide), ih]
    · by_cases hi : invisible n = true
      · rw [remove_invisibles_cons_inv hc hi, ih,
          List.filter_cons_of_neg (by simp [invisible_not_isDig hi])]
      · rw [remove_invisibles_cons_keep hc (by simpa using hi),
          List.filter_cons, List.filter_cons, ih]

theorem filter_isDig_not_ws (l : List Nat) :
    (l.filter (fun n => !ws n)).filter isDig = l.filter isDig := by
  rw [List.filter_filter]
  refine List.filter_congr fun a _ => ?_
  cases hd : isDig a with
  | true => simp [isDig_not_ws hd]
  | false => simp

theorem filter_isDig_cc_compact (v : List Nat) :
    (cc_compact v).filter isDig = v.filter isDig := by
  unfold cc_compact baseStrip
  rw [filter_isDig_not_ws, filter_pyStrip (fun a ha => ws_not_isDig ha),
    filter_isDig_remove_invisibles]

/-! ### pySplit -/

theorem pySplit_ne_nil (sep : Nat) (l : List Nat) : pySplit sep l ≠ [] := by
  induction l with
  | nil => simp [pySplit]
  | cons c t ih =>
    unfold pySplit
    by_cases hc : c = sep
    · simp [hc]
    · rw [if_neg hc]
      cases h : pySplit sep t with
      | nil => simp
      | cons a r => simp

theorem pySplit_flatten (sep : Nat) (l : List Nat) :
    (pySplit sep l).flatten = l.filter (fun n => !(n == sep)) := by
  induction l with
  | nil => rfl
  | cons c t ih =>
    unfold pySplit
    by_cases hc : c = sep
    · rw [if_pos hc]
      simp [hc, ih]
    · rw [if_neg hc]
      cases h : pySplit sep t with
      | nil => exact absurd h (pySplit_ne_nil sep t)
      | cons a r =>
        rw [h] at ih
        simp only [List.flatten_cons] at ih
        simp [List.filter_cons, hc, ← ih]

theorem pySplit_parts_no_sep (sep : Nat) (l : List Nat) :
    ∀ p ∈ pySplit sep l, sep ∉ p := by
  induction l with
  | nil => intro p hp; simp [pySplit] at hp; simp [hp]
  | cons c t ih =>
    intro p hp
    unfold pySplit at hp
    by_cases hc : c = sep
    · rw [if_pos hc] at hp
      rcases List.mem_cons.mp hp with h | h
      · simp [h]
      · exact ih p h
    · rw [if_neg hc] at hp
      cases h : pySplit sep t with
      | nil => exact absurd h (pySplit_ne_nil sep t)
      | cons a r =>
        rw [h] at hp
        rcases List.mem_cons.mp hp with h1 | h1
        · subst h1
          intro hmem
          rcases List.mem_cons.mp hmem with h2 | h2
          · exact hc h2.symm
          · exact ih a (h ▸ List.mem_cons_self a r) h2
        · exact ih p (h ▸ List.mem_cons_of_mem a h1)

theorem pySplit_cons_sep {sep c : Nat} (hc : c = sep) (t : List Nat) :
    pySplit sep (c :: t) = [] :: pySplit sep t := by
  conv_lhs => unfold pySplit
  rw [if_pos hc]

theorem pySplit_cons_ne {sep c : Nat} (hc : ¬c = sep) {t h : List Nat}
    {r : List (List Nat)} (ht : pySplit sep t = h :: r) :
    pySplit sep (c :: t) = (c :: h) :: r := by
  conv_lhs => unfold pySplit
  rw [if_neg hc, ht]

theorem pySplit_first {sep : Nat} {l : List Nat} (hmem : sep ∈ l) :
    pySplit sep l =
      l.takeWhile (fun n => !(n == sep)) ::
        pySplit sep ((l.dropWhile (fun n => !(n == sep))).tail) := by
  induction l with
  | nil => cases hmem
  | cons c t ih =>
    by_cases hc : c = sep
    · subst hc
      rw [pySplit_cons_sep rfl]
      simp [List.takeWhile_cons, List.dropWhile_cons]
    · have hmem' : sep ∈ t := by
        rcases List.mem_cons.mp hmem with h | h
        · exact absurd h.symm hc
        · exact h
      rw [pySplit_cons_ne hc (ih hmem')]
      simp [List.takeWhile_cons, List.dropWhile_cons, hc]

/-! ### fix_periods and the numeric cleaner -/

theorem mem_of_one_lt_count {s : List Nat} (h : 1 < s.count 46) : 46 ∈ s := by
  by_contra hmem
  have h0 : s.count 46 = 0 := List.count_eq_zero.mpr hmem
  omega

theorem fix_periods_expand {s : List Nat} (h : 1 < s.count 46) :
    fix_periods s =
      s.takeWhile (fun n => !(n == 46)) ++
        46 :: (s.dropWhile (fun n => !(n == 46))).tail.filter
          (fun n => !(n == 46)) := by
  unfold fix_periods
  rw [if_pos h, pySplit_first (mem_of_one_lt_count h)]
  simp [pySplit_flatten]

theorem fix_periods_mem {s : List Nat} {n : Nat} (h : n ∈ fix_periods s) :
    n ∈ s ∨ n = 46 := by
  by_cases hcnt : 1 < s.count 46
  · rw [fix_periods_expand hcnt] at h
    rcases List.mem_append.mp h with h1 | h1
    · exact Or.inl ((List.takeWhile_sublist _).subset h1)
    · rcases List.mem_cons.mp h1 with h2 | h2
      · exact Or.inr h2
      · refine Or.inl ?_
        have := (List.filter_sublist _).subset h2
        have := List.tail_sublist (s.dropWhile (fun n => !(n == 46)))
        exact (List.dropWhile_sublist _).subset
          ((List.tail_sublist _).subset ((List.filter_sublist _).subset h2))
  · unfold fix_periods at h
    rw [if_neg hcnt] at h
    exact Or.inl h

theorem fix_periods_count (s : List Nat) : (fix_periods s).count 46 ≤ 1 := by
  by_cases hcnt : 1 < s.count 46
  · rw [fix_periods_expand hcnt, List.count_append, List.count_cons]
    have h1 : (s.takeWhile (fun n => !(n == 46))).count 46 = 0 := by
      refine List.count_eq_zero.mpr fun hmem => ?_
      have := List.mem_takeWhile_imp hmem
      simp at this
    have h2 : ((s.dropWhile (fun n => !(n == 46))).tail.filter
        (fun n => !(n == 46))).count 46 = 0 := by
      refine List.count_eq_zero.mpr fun hmem => ?_
      have := (List.mem_filter.mp hmem).2
      simp at this
    simp [h1, h2]
  · unfold fix_periods
    rw [if_neg hcnt]
    omega

theorem numeric_prefilter_mem {v : List Nat} {n : Nat}
    (h : n ∈ numeric_prefilter v) :
    isDig n = true ∨ n = 46 ∨ n = 43 ∨ n = 45 := by
  have h2 := (List.mem_filter.mp h).2
  simp only [Bool.or_eq_true, beq_iff_eq] at h2
  tauto

theorem clean_numeric_eq (v : List Nat) :
    clean_numeric_general (some v) = [] ∨
      (clean_numeric_general (some v) = fix_periods (numeric_prefilter v) ∧
        ¬(fix_periods (numeric_prefilter v) = [43] ∨
          fix_periods (numeric_prefilter v) = [45] ∨
          fix_periods (numeric_prefilter v) = [46] ∨
          fix_periods (numeric_prefilter v) = [43, 46] ∨
          fix_periods (numeric_prefilter v) = [45, 46])) := by
  simp only [clean_numeric_general]
  by_cases h0 : baseStrip v = []
  · rw [if_pos h0]; exact Or.inl rfl
  · rw [if_neg h0]
    by_cases hg : fix_periods (numeric_prefilter v) = [43] ∨
        fix_periods (numeric_prefilter v) = [45] ∨
        fix_periods (numeric_prefilter v) = [46] ∨
        fix_periods (numeric_prefilter v) = [43, 46] ∨
        fix_periods (numeric_prefilter v) = [45, 46]
    · rw [if_pos hg]; exact Or.inl rfl
    · rw [if_neg hg]; exact Or.inr ⟨rfl, hg⟩

/-- Claim C4: the numeric cleaner realizes the strip / despace /
comma-to-period / junk-deletion pipeline: its output consists only of
digits, periods and signs, at most one period survives (when several
remain, the first is kept and the text after it is concatenated with the
later periods dropped), the degenerate strings are never returned, and
the three examples of the specification hold. -/
theorem C4_clean_numeric :
    clean_numeric_general (some (codes "  3 ,45* ")) = codes "3.45" ∧
    clean_numeric_general (some (codes "1.234.567")) = codes "1.234567" ∧
    clean_numeric_general (some (codes "-")) = codes "" ∧
    (∀ (val : Option (List Nat)) (n : Nat), n ∈ clean_numeric_general val →
      isDig n = true ∨ n = 46 ∨ n = 43 ∨ n = 45) ∧
    (∀ val : Option (List Nat), (clean_numeric_general val).count 46 ≤ 1) ∧
    (∀ val : Option (List Nat),
      ¬(clean_numeric_general val = [43] ∨ clean_numeric_general val = [45] ∨
        clean_numeric_general val = [46] ∨ clean_numeric_general val = [43, 46] ∨
        clean_numeric_general val = [45, 46])) ∧
    (∀ v : List Nat, 1 < (numeric_prefilter v).count 46 →
      fix_periods (numeric_prefilter v) =
        (numeric_prefilter v).takeWhile (fun n => !(n == 46)) ++
          46 :: ((numeric_prefilter v).dropWhile (fun n => !(n == 46))).tail.filter
            (fun n => !(n == 46))) := by
  refine ⟨by decide, by decide, by decide, ?_, ?_, ?_, fun v h => fix_periods_expand h⟩
  · intro val n h
    match val with
    | none => cases h
    | some v =>
      rcases clean_numeric_eq v with he | ⟨he, _⟩
      · rw [he] at h; cases h
      · rw [he] at h
        rcases fix_periods_mem h with h1 | h1
        · exact numeric_prefilter_mem h1
        · exact Or.inr (Or.inl h1)
  · intro val
    match val with
    | none => simp [clean_numeric_general]
    | some v =>
      rcases clean_numeric_eq v with he | ⟨he, _⟩
      · simp [he]
      · rw [he]; exact fix_periods_count _
  · intro val
    match val with
    | none => simp [clean_numeric_general]
    | some v =>
      rcases clean_numeric_eq v with he | ⟨he, hg⟩
      · rw [he]; decide
      · rw [he]; exact hg

/-- Witness for C4: the invariants applied at the concrete value
`"1.234.567"`, discharging the membership and multi-period hypotheses
there. -/
theorem C4_witness :
    (isDig 49 = true ∨ 49 = 46 ∨ 49 = 43 ∨ 49 = 45) ∧
    fix_periods (numeric_prefilter (codes "1.234.567")) =
      (numeric_prefilter (codes "1.234.567")).takeWhile (fun n => !(n == 46)) ++
        46 :: ((numeric_prefilter (codes "1.234.567")).dropWhile
          (fun n => !(n == 46))).tail.filter (fun n => !(n == 46)) :=
  ⟨C4_clean_numeric.2.2.2.1 (some (codes "1.234.567")) 49 (by decide),
   C4_clean_numeric.2.2.2.2.2.2 (codes "1.234.567") (by decide)⟩

/-- Claim C5: the country-code cleaner keeps exactly the digit
subsequence of the input (so leading zeros survive), returns the empty
string when no digit remains, prepends `+` iff the whitespace-compacted
input starts with `+`, and satisfies the three examples of the
specification (a bare `507` never gains a `+`). -/
theorem C5_clean_country_code :
    clean_country_code none = [] ∧
    (∀ v : List Nat,
      clean_country_code (some v) =
        if v.filter isDig = [] then []
        else if (cc_compact v).head? = some 43 then 43 :: v.filter isDig
        else v.filter isDig) ∧
    clean_country_code (some (codes "+507 ")) = codes "+507" ∧
    clean_country_code (some (codes "507")) = codes "507" ∧
    clean_country_code (some (codes "abc")) = codes "" := by
  refine ⟨rfl, ?_, by decide, by decide, by decide⟩
  intro v
  have hd := filter_isDig_cc_compact v
  simp only [clean_country_code]
  by_cases h0 : baseStrip v = []
  · have hcc : cc_compact v = [] := by unfold cc_compact; rw [h0]; rfl
    have hv : v.filter isDig = [] := by rw [← hd, hcc]; rfl
    rw [if_pos h0, if_pos hv]
  · rw [if_neg h0, hd]

/-! ### Claim C3: the email cleaner -/

/-- Counterexample for C3: on `"a@b.com;c@d.com"` the one email cleaner
of the code returns the strict empty-string-plus-error result; no
configuration of the code produces the claimed lenient alternative that
keeps the first match `"a@b.com"`. -/
theorem C3_counterexample :
    clean_email_one (some (codes "a@b.com;c@d.com")) =
      ([], some (codes "Más de un correo o separadores detectados")) ∧
    (clean_email_one (some (codes "a@b.com;c@d.com"))).1 ≠ codes "a@b.com" := by
  constructor
  · decide
  · decide

/-- Claim C3 (amended): the email cleaner implements only the strict
behavior: every non-blank value whose normalized form contains one of
the separators `;`, `,`, `/`, `|` yields the empty string plus the
"Más de un correo o separadores detectados" error. -/
theorem C3_email_strict :
    ∀ v : List Nat,
      (baseStrip v).any (fun n => n == 59 || n == 44 || n == 47 || n == 124) =
        true →
      clean_email_one (some v) =
        ([], some (codes "Más de un correo o separadores detectados")) := by
  intro v hsep
  have hne : ¬pyStrip v = [] := by
    intro h0
    rw [show baseStrip v = [] from pyStrip_remove_invisibles_nil h0] at hsep
    simp at hsep
  simp only [clean_email_one]
  rw [if_neg hne, if_pos hsep]

/-- Witness for C3: the strict behavior applied at the concrete
separator-carrying value of the specification. -/
theorem C3_witness :
    clean_email_one (some (codes "a@b.com;c@d.com")) =
      ([], some (codes "Más de un correo o separadores detectados")) :=
  C3_email_strict (codes "a@b.com;c@d.com") (by decide)

/-! ### Claims C6 and C8: the column classifiers -/

theorem testedValues_ne_nil {values : List (Option (List Nat))}
    (h : 0 < (testedValues values 80).length) : values.filterMap id ≠ [] := by
  intro he
  simp [testedValues, columnSample, he] at h

/-- Counterexample for C6: a column named `indicativo` whose values are
all absent hits the name keyword, yet `detect_country_code_columns`
skips it (`if series.empty: continue`) before the name heuristic is
consulted, so it is not classified CountryCode. -/
theorem C6_counterexample :
    cc_name_hit (codes "indicativo") = true ∧
    detect_country_code_column (codes "indicativo") [none] = false := by
  constructor
  · decide
  · decide

/-- Claim C6 (amended): for a column with at least one non-absent value
the name and value heuristics are OR'd — a keyword in the name
classifies the column even with a 0% sampled-value pass rate, and a
sampled pass rate of at least 0.75 classifies it without any name hit;
but a column whose values are all absent is never classified
CountryCode, regardless of its name. -/
theorem C6_or_semantics :
    ∀ (name : List Nat) (values : List (Option (List Nat))),
      (values.filterMap id = [] →
        detect_country_code_column name values = false) ∧
      (values.filterMap id ≠ [] →
        (detect_country_code_column name values = true ↔
          (cc_name_hit name = true ∨
            (0 < (testedValues values 80).length ∧
              (3 : ℚ) / 4 ≤
                (((testedValues values 80).filter
                  looks_like_country_code_value).length : ℚ) /
                  ((testedValues values 80).length : ℚ))))) := by
  intro name values
  constructor
  · intro h
    simp [detect_country_code_column, h]
  · intro h
    have hne : ¬((values.filterMap id).isEmpty = true) := by
      simpa [List.isEmpty_iff] using h
    simp only [detect_country_code_column, if_neg hne, cc_value_hit,
      Bool.or_eq_true, Bool.and_eq_true, decide_eq_true_eq]
    constructor
    · rintro (hn | ⟨ht, hq⟩)
      · exact Or.inl hn
      · refine Or.inr ⟨ht, ?_⟩
        rw [div_le_div_iff (by norm_num)
          (by exact_mod_cast Nat.cast_pos.mpr ht)]
        push_cast
        rw [mul_comm ((((testedValues values 80).filter
          looks_like_country_code_value).length : ℚ)) 4]
        exact_mod_cast hq
    · rintro (hn | ⟨ht, hq⟩)
      · exact Or.inl hn
      · refine Or.inr ⟨ht, ?_⟩
        rw [div_le_div_iff (by norm_num)
          (by exact_mod_cast Nat.cast_pos.mpr ht)] at hq
        push_cast at hq
        rw [mul_comm ((((testedValues values 80).filter
          looks_like_country_code_value).length : ℚ)) 4] at hq
        exact_mod_cast hq

/-- Witness for C6: a column named `pais` with one non-absent value that
matches nothing is still classified CountryCode by the name heuristic
alone. -/
theorem C6_witness :
    detect_country_code_column (codes "pais") [some (codes "abc")] = true :=
  ((C6_or_semantics (codes "pais") [some (codes "abc")]).2 (by decide)).mpr
    (Or.inl (by decide))

/-- Claim C8: a column is classified Numeric iff among the (up to 80)
sampled non-absent, non-blank values the pass fraction of the
numeric-likeness test is at least the 0.85 threshold; a column where
exactly 84% of 25 tested values pass is not classified, a column where
85% of 80 pass is, and a column with zero testable values never is. -/
theorem C8_detect_numeric :
    (∀ values : List (Option (List Nat)),
      (detect_numeric_column values = true ↔
        0 < (testedValues values 80).length ∧
          (85 : ℚ) / 100 ≤
            (((testedValues values 80).filter is_numeric_like_value).length : ℚ) /
              ((testedValues values 80).length : ℚ))) ∧
    (∀ values : List (Option (List Nat)),
      (testedValues values 80).length = 0 →
        detect_numeric_column values = false) ∧
    detect_numeric_column
      (List.replicate 21 (some (codes "1")) ++
        List.replicate 4 (some (codes "x"))) = false ∧
    detect_numeric_column
      (List.replicate 68 (some (codes "1")) ++
        List.replicate 12 (some (codes "x"))) = true := by
  refine ⟨?_, ?_, by decide, by decide⟩
  · intro values
    simp only [detect_numeric_column, Bool.and_eq_true, decide_eq_true_eq]
    constructor
    · rintro ⟨⟨_, ht⟩, hq⟩
      refine ⟨ht, ?_⟩
      rw [div_le_div_iff (by norm_num)
        (by exact_mod_cast Nat.cast_pos.mpr ht)]
      push_cast
      rw [mul_comm ((((testedValues values 80).filter
        is_numeric_like_value).length : ℚ)) 100]
      have : 85 * (testedValues values 80).length ≤
          100 * ((testedValues values 80).filter is_numeric_like_value).length := by
        omega
      exact_mod_cast this
    · rintro ⟨ht, hq⟩
      have hemp : ¬((values.filterMap id).isEmpty = true) := by
        simpa [List.isEmpty_iff] using testedValues_ne_nil ht
      rw [div_le_div_iff (by norm_num)
        (by exact_mod_cast Nat.cast_pos.mpr ht)] at hq
      push_cast at hq
      rw [mul_comm ((((testedValues values 80).filter
        is_numeric_like_value).length : ℚ)) 100] at hq
      have hnat : 85 * (testedValues values 80).length ≤
          100 * ((testedValues values 80).filter is_numeric_like_value).length := by
        exact_mod_cast hq
      exact ⟨⟨by simpa using hemp, ht⟩, by omega⟩
  · intro values h
    simp [detect_numeric_column, h]

/-- Witness for C8: the zero-testable-values clause applied at a column
whose only value is blank. -/
theorem C8_witness :
    detect_numeric_column [some (codes " ")] = false :=
  C8_detect_numeric.2.1 [some (codes " ")] (by decide)

/-! ### Claim C1: cleaner dispatch -/

theorem clean_cell_resolve (cfg : CleanConfig) (c : List Nat)
    (val : Option (List Nat)) :
    clean_cell cfg c val = apply_role cfg.proper (resolve_role cfg c) val := by
  unfold clean_cell resolve_role rolePrecedence
  by_cases h1 : cfg.cc c
  · simp [List.find?, role_applies, h1, apply_role]
  · by_cases h2 : cfg.apt = some c
    · simp [List.find?, role_applies, h1, h2, apply_role]
    · by_cases h3 : cfg.email = some c
      · simp [List.find?, role_applies, h1, h2, h3, apply_role]
      · by_cases h4 : cfg.num c
        · simp [List.find?, role_applies, h1, h2, h3, h4, apply_role]
        · simp [List.find?, role_applies, h1, h2, h3, h4, apply_role]

/-- Claim C1: every cell of the row loop is cleaned by exactly the first
applicable role of the precedence list CountryCode, Apartment, Email,
Numeric, GenericText; in particular a column classified both Numeric and
CountryCode is cleaned by the country-code cleaner. -/
theorem C1_dispatch :
    ∀ (cfg : CleanConfig) (c : List Nat) (val : Option (List Nat)),
      clean_cell cfg c val = apply_role cfg.proper (resolve_role cfg c) val ∧
      (cfg.cc c = true → cfg.num c = true →
        clean_cell cfg c val = (clean_country_code val, none)) := by
  intro cfg c val
  refine ⟨clean_cell_resolve cfg c val, fun h1 _ => ?_⟩
  unfold clean_cell
  rw [if_pos h1]

/-- Witness for C1: a column that the numeric classifier accepts and the
country-code classifier also accepts is cleaned by the country-code
cleaner. -/
theorem C1_witness :
    clean_cell
      { cc := fun c => c == codes "ind", num := fun _ => true, apt := none,
        email := none, max30 := [], truncate := false, proper := true }
      (codes "ind") (some (codes "+5a7")) =
      (clean_country_code (some (codes "+5a7")), none) :=
  (C1_dispatch _ (codes "ind") (some (codes "+5a7"))).2 (by decide) rfl

/-! ### Claim C7: the length cap -/

theorem codes_append (a b : String) : codes (a ++ b) = codes a ++ codes b := by
  unfold codes
  rw [String.data_append, List.map_append]

theorem validate_len_pos {s : List Nat} (h : 30 < s.length) :
    validate_len s 30 =
      some (codes "Supera 30 caracteres (tiene " ++ natCodes s.length ++
        codes ")") := by
  unfold validate_len
  rw [if_pos h]
  congr 1
  rw [codes_append, codes_append,
    show codes ("Supera " ++ Nat.repr 30 ++ " caracteres (tiene ") =
      codes "Supera 30 caracteres (tiene " from by decide]
  rfl

theorem len_cap_step_exceeds {tr : Bool} {assoc : List (List Nat × List Nat)}
    {errs : List (List Nat)} {c : List Nat}
    (h : 30 < (lookupVal assoc c).length) :
    len_cap_step tr (assoc, errs) c =
      ((if tr then assocUpdate assoc c ((lookupVal assoc c).take 30) else assoc),
       errs ++ [colErr c (codes "Supera 30 caracteres (tiene " ++
         natCodes (lookupVal assoc c).length ++ codes ")")]) := by
  unfold len_cap_step
  rw [validate_len_pos h]

/-- Claim C7: for a designated length-capped column whose cleaned value
has more than 30 characters, the pass over `max30_cols` records the
diagnostic `Supera 30 caracteres (tiene M)` with `M` the original
cleaned length, leaves the value untouched when `truncate` is off, and
replaces it by its first 30 characters when `truncate` is on (the
message still reporting the original `M`); a 35-character cleaned value
behaves exactly so end to end. -/
theorem C7_length_cap :
    (∀ (tr : Bool) (assoc : List (List Nat × List Nat))
        (errs : List (List Nat)) (c : List Nat),
      30 < (lookupVal assoc c).length →
      len_cap_step tr (assoc, errs) c =
        ((if tr then assocUpdate assoc c ((lookupVal assoc c).take 30)
          else assoc),
         errs ++ [colErr c (codes "Supera 30 caracteres (tiene " ++
           natCodes (lookupVal assoc c).length ++ codes ")")])) ∧
    clean_row
      { cc := fun _ => false, num := fun _ => false, apt := none,
        email := none, max30 := [codes "col"], truncate := false,
        proper := false }
      [codes "col"] [some (List.replicate 35 97)] =
      ([(codes "col", List.replicate 35 97)],
       [codes "col: Supera 30 caracteres (tiene 35)"]) ∧
    clean_row
      { cc := fun _ => false, num := fun _ => false, apt := none,
        email := none, max30 := [codes "col"], truncate := true,
        proper := false }
      [codes "col"] [some (List.replicate 35 97)] =
      ([(codes "col", List.replicate 30 97)],
       [codes "col: Supera 30 caracteres (tiene 35)"]) := by
  refine ⟨fun tr assoc errs c h => len_cap_step_exceeds h, by decide, by decide⟩

/-- Witness for C7: the length-cap step applied to a concrete
35-character cleaned value. -/
theorem C7_witness :
    len_cap_step false ([(codes "c", List.replicate 35 97)], []) (codes "c") =
      ((if false then
          assocUpdate [(codes "c", List.replicate 35 97)] (codes "c")
            ((lookupVal [(codes "c", List.replicate 35 97)] (codes "c")).take 30)
        else [(codes "c", List.replicate 35 97)]),
       [] ++ [colErr (codes "c") (codes "Supera 30 caracteres (tiene " ++
         natCodes (lookupVal [(codes "c", List.replicate 35 97)]
           (codes "c")).length ++ codes ")")]) :=
  C7_length_cap.1 false [(codes "c", List.replicate 35 97)] [] (codes "c")
    (by decide)

/-! ### Claim C10: error provenance -/

theorem clean_cell_err_none (cfg : CleanConfig) (c : List Nat)
    (val : Option (List Nat)) (h : resolve_role cfg c ≠ Role.email) :
    (clean_cell cfg c val).2 = none := by
  rw [clean_cell_resolve cfg c val]
  cases hr : resolve_role cfg c with
  | email => exact absurd hr h
  | countryCode => rfl
  | apartment => rfl
  | numeric => rfl
  | genericText => rfl

theorem len_cap_pass_no_over {tr : Bool} {assoc : List (List Nat × List Nat)}
    (cols : List (List Nat))
    (h : ∀ c ∈ cols, (lookupVal assoc c).length ≤ 30) :
    cols.foldl (len_cap_step tr) (assoc, []) = (assoc, []) := by
  induction cols with
  | nil => rfl
  | cons c t ih =>
    have hc := h c (List.mem_cons_self c t)
    have hstep : len_cap_step tr (assoc, []) c = (assoc, []) := by
      unfold len_cap_step
      rw [show validate_len (lookupVal assoc c) 30 = none from by
        unfold validate_len; rw [if_neg (by omega)]]
    rw [List.foldl_cons, hstep]
    exact ih fun c' hc' => h c' (List.mem_cons_of_mem c hc')

/-- Claim C10: only the email cleaner and the length-cap check produce
diagnostics: a cell whose resolved role is not Email never contributes
an error, and a row with no email error and no over-length designated
column emits no RowError — even when numeric or country-code cells clean
to the empty string. -/
theorem C10_error_sources :
    (∀ (cfg : CleanConfig) (c : List Nat) (val : Option (List Nat)),
      resolve_role cfg c ≠ Role.email → (clean_cell cfg c val).2 = none) ∧
    (∀ (cfg : CleanConfig) (cols : List (List Nat))
        (row : List (Option (List Nat))) (idx : Nat),
      (∀ p ∈ cols.zip row, resolve_role cfg p.1 = Role.email →
        (clean_email_one p.2).2 = none) →
      (∀ c ∈ cfg.max30,
        (lookupVal (clean_cells cfg cols row).1 c).length ≤ 30) →
      ((clean_row cfg cols row).2 = [] ∧
        emit_row_error idx (clean_row cfg cols row).2 = none)) := by
  refine ⟨fun cfg c val h => clean_cell_err_none cfg c val h, ?_⟩
  intro cfg cols row idx hEmail hLen
  have hcells : (clean_cells cfg cols row).2 = [] := by
    refine List.filterMap_eq_nil_iff.mpr fun p hp => ?_
    by_cases hr : resolve_role cfg p.1 = Role.email
    · have hnone : (clean_cell cfg p.1 p.2).2 = none := by
        rw [clean_cell_resolve, hr]
        exact hEmail p hp hr
      rw [hnone]
      rfl
    · rw [clean_cell_err_none cfg p.1 p.2 hr]
      rfl
  have hpair : clean_cells cfg cols row = ((clean_cells cfg cols row).1, []) := by
    rw [← hcells]
  have hrow : clean_row cfg cols row = ((clean_cells cfg cols row).1, []) := by
    unfold clean_row
    rw [hpair, len_cap_pass_no_over cfg.max30 hLen]
  rw [hrow]
  exact ⟨rfl, rfl⟩

/-- Witness for C10: a row whose numeric cell cleans `"abc"` to the
empty string and whose country-code cell cleans `"+x"` to the empty
string emits no RowError. -/
theorem C10_witness :
    (clean_row
      { cc := fun c => c == codes "cc", num := fun c => c == codes "n",
        apt := none, email := none, max30 := [], truncate := false,
        proper := true }
      [codes "n", codes "cc"]
      [some (codes "abc"), some (codes "+x")]).2 = [] ∧
    emit_row_error 0
      (clean_row
        { cc := fun c => c == codes "cc", num := fun c => c == codes "n",
          apt := none, email := none, max30 := [], truncate := false,
          proper := true }
        [codes "n", codes "cc"]
        [some (codes "abc"), some (codes "+x")]).2 = none := by
  refine C10_error_sources.2 _ _ _ 0 ?_ ?_
  · intro p hp hr
    fin_cases hp <;> exact absurd hr (by decide)
  · intro c hc
    exact absurd hc (List.not_mem_nil c)

/-! ### The decomposition table -/

theorem lookup_some_mem {t : List (Nat × List Nat)} {a : Nat} {b : List Nat}
    (h : t.lookup a = some b) : (a, b) ∈ t := by
  induction t with
  | nil => cases h
  | cons p r ih =>
    rw [List.lookup_cons] at h
    by_cases hk : a == p.1
    · refine List.mem_cons.mpr (Or.inl ?_)
      rw [show p = (p.1, p.2) from rfl] at h ⊢
      simp only [hk] at h
      have ha : a = p.1 := by simpa using hk
      cases h
      rw [ha]
    · rw [show p = (p.1, p.2) from rfl] at h
      simp only [Bool.not_eq_true] at hk
      rw [hk] at h
      exact List.mem_cons.mpr (Or.inr (ih h))

theorem lookup_none_of_keys_big {t : List (Nat × List Nat)} {n : Nat}
    (hkeys : ∀ p ∈ t, 160 ≤ p.1) (hn : n < 160) : t.lookup n = none := by
  induction t with
  | nil => rfl
  | cons p r ih =>
    rw [List.lookup_cons, show p = (p.1, p.2) from rfl]
    have hne : (n == p.1) = false := by
      have := hkeys p (List.mem_cons_self p r)
      simp only [beq_eq_false_iff_ne, ne_eq]
      omega
    simp only [hne]
    exact ih fun q hq => hkeys q (List.mem_cons_of_mem p hq)

theorem nfkd_keys_big : ∀ p ∈ nfkdTable, 160 ≤ p.1 := by decide

theorem nfkd_lookup_small {n : Nat} (hn : n < 160) :
    nfkdTable.lookup n = none :=
  lookup_none_of_keys_big nfkd_keys_big hn

theorem nfkdChar_self {n : Nat} (h : nfkdTable.lookup n = none) :
    nfkdChar n = [n] := by
  unfold nfkdChar
  rw [h]
  rfl

theorem nfkd_out_ok : ∀ p ∈ nfkdTable, ∀ d ∈ p.2,
    combining d = true ∨
      (nfkdTable.lookup d = none ∧ d ≠ 160 ∧ d ≠ 8239) := by decide

/-! ### strip_accents -/

theorem strip_accents_cons (n : Nat) (t : List Nat) :
    strip_accents (n :: t) =
      (nfkdChar n).filter (fun d => !combining d) ++ strip_accents t := by
  unfold strip_accents
  rw [List.map_cons, List.flatten_cons, List.filter_append]

theorem strip_accents_mem {l : List Nat} {d : Nat}
    (h : d ∈ strip_accents l) :
    combining d = false ∧ nfkdTable.lookup d = none ∧
      (d ∈ l ∨ (d ≠ 160 ∧ d ≠ 8239)) := by
  unfold strip_accents at h
  obtain ⟨hmem, hcomb⟩ := List.mem_filter.mp h
  obtain ⟨li, hli, hdli⟩ := List.mem_flatten.mp hmem
  obtain ⟨c, hc, hfc⟩ := List.mem_map.mp hli
  subst hfc
  have hcomb' : combining d = false := by simpa using hcomb
  cases hlc : nfkdTable.lookup c with
  | none =>
    rw [nfkdChar_self hlc] at hdli
    have hd : d = c := by simpa using hdli
    subst hd
    exact ⟨hcomb', hlc, Or.inl hc⟩
  | some out =>
    have hout : nfkdChar c = out := by unfold nfkdChar; rw [hlc]; rfl
    rw [hout] at hdli
    rcases nfkd_out_ok (c, out) (lookup_some_mem hlc) d hdli with hcm | hok
    · rw [hcm] at hcomb'; cases hcomb'
    · exact ⟨hcomb', hok.1, Or.inr hok.2⟩

theorem strip_accents_eq_self {l : List Nat}
    (h : ∀ n ∈ l, nfkdTable.lookup n = none ∧ combining n = false) :
    strip_accents l = l := by
  induction l with
  | nil => rfl
  | cons n t ih =>
    obtain ⟨hl, hc⟩ := h n (List.mem_cons_self n t)
    rw [strip_accents_cons, nfkdChar_self hl]
    rw [show ([n].filter (fun d => !combining d)) = [n] from by simp [hc]]
    rw [ih fun m hm => h m (List.mem_cons_of_mem n hm)]
    rfl

/-! ### collapse_spaces -/

theorem csGo_true_cons (a : Nat) (t : List Nat) :
    csGo true (a :: t) = if ws a then csGo true t else a :: csGo false t := rfl

theorem csGo_false_two (a b : Nat) (t : List Nat) :
    csGo false (a :: b :: t) =
      if ws a && ws b then 32 :: csGo true t else a :: csGo false (b :: t) := rfl

theorem noDouble_cons_of {a : Nat} {x : List Nat} (hx : noDoubleWs x = true)
    (h : ws a = false ∨ headWs x = false) : noDoubleWs (a :: x) = true := by
  cases x with
  | nil => rfl
  | cons b t =>
    have hb : (!(ws a && ws b)) = true := by
      rcases h with h | h
      · simp [h]
      · simp only [headWs] at h; simp [h]
    simp only [noDoubleWs, Bool.and_eq_true]
    exact ⟨hb, hx⟩

theorem noDouble_tail {a : Nat} {x : List Nat}
    (h : noDoubleWs (a :: x) = true) : noDoubleWs x = true := by
  cases x with
  | nil => rfl
  | cons b t =>
    simp only [noDoubleWs, Bool.and_eq_true] at h
    exact h.2

theorem csGo_mem (f : Bool) (l : List Nat) :
    ∀ n ∈ csGo f l, n ∈ l ∨ n = 32 := by
  induction f, l using csGo.induct with
  | case1 f =>
    intro n h
    rw [show csGo f [] = [] from by cases f <;> rfl] at h
    cases h
  | case2 a t hws ih =>
    intro n h
    rw [csGo_true_cons, if_pos hws] at h
    rcases ih n h with h1 | h1
    · exact Or.inl (List.mem_cons_of_mem a h1)
    · exact Or.inr h1
  | case3 a t hws ih =>
    intro n h
    rw [csGo_true_cons, if_neg hws] at h
    rcases List.mem_cons.mp h with h1 | h1
    · exact Or.inl (h1 ▸ List.mem_cons_self a t)
    · rcases ih n h1 with h2 | h2
      · exact Or.inl (List.mem_cons_of_mem a h2)
      · exact Or.inr h2
  | case4 a => intro n h; exact Or.inl h
  | case5 a b t hcond ih =>
    intro n h
    rw [csGo_false_two, if_pos hcond] at h
    rcases List.mem_cons.mp h with h1 | h1
    · exact Or.inr h1
    · rcases ih n h1 with h2 | h2
      · exact Or.inl (List.mem_cons_of_mem a (List.mem_cons_of_mem b h2))
      · exact Or.inr h2
  | case6 a b t hcond ih =>
    intro n h
    rw [csGo_false_two, if_neg hcond] at h
    rcases List.mem_cons.mp h with h1 | h1
    · exact Or.inl (h1 ▸ List.mem_cons_self a (b :: t))
    · rcases ih n h1 with h2 | h2
      · exact Or.inl (List.mem_cons_of_mem a h2)
      · exact Or.inr h2

theorem csGo_true_headWs (l : List Nat) : headWs (csGo true l) = false := by
  induction l with
  | nil => rfl
  | cons a t ih =>
    rw [csGo_true_cons]
    by_cases h : ws a = true
    · rw [if_pos h]; exact ih
    · rw [if_neg h]
      simpa [headWs] using h

theorem csGo_false_headWs (l : List Nat) : headWs (csGo false l) = headWs l := by
  cases l with
  | nil => rfl
  | cons a t =>
    cases t with
    | nil => rfl
    | cons b t' =>
      rw [csGo_false_two]
      by_cases h : (ws a && ws b) = true
      · rw [if_pos h]
        simp only [headWs]
        have hab := (Bool.and_eq_true _ _).mp h
        rw [hab.1]
        decide
      · rw [if_neg h]
        rfl

theorem csGo_noDouble (f : Bool) (l : List Nat) :
    noDoubleWs (csGo f l) = true := by
  induction f, l using csGo.induct with
  | case1 f => cases f <;> rfl
  | case2 a t hws ih => rw [csGo_true_cons, if_pos hws]; exact ih
  | case3 a t hws ih =>
    rw [csGo_true_cons, if_neg hws]
    exact noDouble_cons_of ih (Or.inl (by simpa using hws))
  | case4 a => rfl
  | case5 a b t hcond ih =>
    rw [csGo_false_two, if_pos hcond]
    exact noDouble_cons_of ih (Or.inr (csGo_true_headWs t))
  | case6 a b t hcond ih =>
    rw [csGo_false_two, if_neg hcond]
    refine noDouble_cons_of ih ?_
    by_cases hwa : ws a = true
    · refine Or.inr ?_
      rw [csGo_false_headWs]
      have hwb : ws b = false := by
        cases hwb : ws b
        · rfl
        · exact absurd (by simp [hwa, hwb] : (ws a && ws b) = true) hcond
      simpa [headWs] using hwb
    · exact Or.inl (by simpa using hwa)

theorem csGo_eq_self {l : List Nat} (h : noDoubleWs l = true) :
    csGo false l = l := by
  induction l using noDoubleWs.induct with
  | case1 => rfl
  | case2 a => rfl
  | case3 a b t ih =>
    have h1 : (!(ws a && ws b)) = true ∧ noDoubleWs (b :: t) = true := by
      rw [show noDoubleWs (a :: b :: t) =
        ((!(ws a && ws b)) && noDoubleWs (b :: t)) from rfl,
        Bool.and_eq_true] at h
      exact h
    have hx : (ws a && ws b) = false := by
      cases hab : (ws a && ws b)
      · rfl
      · have := h1.1
        rw [hab] at this
        cases this
    rw [csGo_false_two, if_neg (by simp [hx]), ih h1.2]

theorem noDouble_append_left {p s : List Nat}
    (h : noDoubleWs (p ++ s) = true) : noDoubleWs s = true := by
  induction p with
  | nil => exact h
  | cons a p' ih => exact ih (noDouble_tail (by simpa using h))

theorem noDouble_append_right {p s : List Nat}
    (h : noDoubleWs (p ++ s) = true) : noDoubleWs p = true := by
  induction p using noDoubleWs.induct with
  | case1 => rfl
  | case2 a => rfl
  | case3 a b t ih =>
    rw [show ((a :: b :: t) ++ s) = a :: b :: (t ++ s) from rfl,
      show noDoubleWs (a :: b :: (t ++ s)) =
        ((!(ws a && ws b)) && noDoubleWs (b :: (t ++ s))) from rfl,
      Bool.and_eq_true] at h
    rw [show noDoubleWs (a :: b :: t) =
      ((!(ws a && ws b)) && noDoubleWs (b :: t)) from rfl, Bool.and_eq_true]
    exact ⟨h.1, ih h.2⟩

/-! ### Whitespace-mask congruences -/

theorem headWs_congr_mask {l₁ l₂ : List Nat} (h : l₁.map ws = l₂.map ws) :
    headWs l₁ = headWs l₂ := by
  cases l₁ with
  | nil =>
    cases l₂ with
    | nil => rfl
    | cons b t => cases h
  | cons a t =>
    cases l₂ with
    | nil => cases h
    | cons b s =>
      simp only [List.map_cons, List.cons.injEq] at h
      simp [headWs, h.1]

theorem lastWs_congr_mask {l₁ l₂ : List Nat} (h : l₁.map ws = l₂.map ws) :
    lastWs l₁ = lastWs l₂ := by
  have h2 : (l₁.map ws).getLast? = (l₂.map ws).getLast? := by rw [h]
  rw [List.getLast?_map, List.getLast?_map] at h2
  unfold lastWs
  cases hg1 : l₁.getLast? with
  | none =>
    cases hg2 : l₂.getLast? with
    | none => rfl
    | some b => rw [hg1, hg2] at h2; cases h2
  | some a =>
    cases hg2 : l₂.getLast? with
    | none => rw [hg1, hg2] at h2; cases h2
    | some b =>
      rw [hg1, hg2] at h2
      simp only [Option.map_some'] at h2
      simpa using h2

theorem noDouble_congr_mask {l₁ : List Nat} :
    ∀ {l₂ : List Nat}, l₁.map ws = l₂.map ws →
      noDoubleWs l₁ = noDoubleWs l₂ := by
  induction l₁ using noDoubleWs.induct with
  | case1 =>
    intro l₂ h
    cases l₂ with
    | nil => rfl
    | cons b t => cases h
  | case2 a =>
    intro l₂ h
    cases l₂ with
    | nil => cases h
    | cons b s =>
      cases s with
      | nil => rfl
      | cons c s' => simp at h
  | case3 a b t ih =>
    intro l₂ h
    cases l₂ with
    | nil => cases h
    | cons x s =>
      cases s with
      | nil => simp at h
      | cons y s' =>
        simp only [List.map_cons, List.cons.injEq] at h
        obtain ⟨hab, hxy, hts⟩ := h
        rw [show noDoubleWs (a :: b :: t) =
          ((!(ws a && ws b)) && noDoubleWs (b :: t)) from rfl,
          show noDoubleWs (x :: y :: s') =
            ((!(ws x && ws y)) && noDoubleWs (y :: s')) from rfl,
          hab, hxy, ih (show (b :: t).map ws = (y :: s').map ws by
            simp [hxy, hts])]

/-! ### Case transforms -/

theorem toLower_toLower (n : Nat) :
    toLowerCode (toLowerCode n) = toLowerCode n := by
  unfold toLowerCode
  by_cases h : 65 ≤ n ∧ n ≤ 90
  · rw [if_pos h, if_neg (by omega)]
  · rw [if_neg h, if_neg h]

theorem toLower_toUpper (n : Nat) :
    toLowerCode (toUpperCode n) = toLowerCode n := by
  unfold toLowerCode toUpperCode
  by_cases h : 97 ≤ n ∧ n ≤ 122
  · rw [if_pos h, if_pos (by omega), if_neg (by omega)]
    omega
  · rw [if_neg h]

theorem ws_toLower (n : Nat) : ws (toLowerCode n) = ws n := by
  unfold toLowerCode
  split
  · simp only [ws, decide_eq_decide]
    omega
  · rfl

theorem ws_toUpper (n : Nat) : ws (toUpperCode n) = ws n := by
  unfold toUpperCode
  split
  · simp only [ws, decide_eq_decide]
    omega
  · rfl

theorem cased_not_ws {n : Nat} (h : isCased n = true) : ws n = false := by
  simp only [isCased, isAlphaCode, decide_eq_true_eq] at h
  simp only [ws, decide_eq_false_iff_not]
  omega

theorem pyLower_mask (l : List Nat) : (pyLower l).map ws = l.map ws := by
  unfold pyLower
  rw [List.map_map]
  exact List.map_congr_left fun a _ => ws_toLower a

theorem pyLower_idem (l : List Nat) : pyLower (pyLower l) = pyLower l := by
  unfold pyLower
  rw [List.map_map]
  exact List.map_congr_left fun a _ => toLower_toLower a

theorem pyTitleGo_mask (prev : Bool) (l : List Nat) :
    (pyTitleGo prev l).map ws = l.map ws := by
  induction l generalizing prev with
  | nil => rfl
  | cons c t ih =>
    simp only [pyTitleGo, List.map_cons, ih]
    congr 1
    by_cases hc : isCased c = true
    · rw [if_pos hc]
      by_cases hp : prev = true
      · rw [if_pos hp, ws_toLower]
      · rw [if_neg hp, ws_toUpper]
    · rw [if_neg hc]

theorem pyLower_pyTitleGo (prev : Bool) (l : List Nat) :
    pyLower (pyTitleGo prev l) = pyLower l := by
  induction l generalizing prev with
  | nil => rfl
  | cons c t ih =>
    simp only [pyTitleGo, pyLower, List.map_cons]
    rw [show List.map toLowerCode (pyTitleGo (isCased c) t) =
      pyLower (pyTitleGo (isCased c) t) from rfl, ih,
      show List.map toLowerCode t = pyLower t from rfl]
    congr 1
    by_cases hc : isCased c = true
    · rw [if_pos hc]
      by_cases hp : prev = true
      · rw [if_pos hp, toLower_toLower]
      · rw [if_neg hp, toLower_toUpper]
    · rw [if_neg hc]

theorem nompropio_idem (l : List Nat) :
    nompropio_like_excel (nompropio_like_excel l) = nompropio_like_excel l := by
  unfold nompropio_like_excel
  rw [pyLower_pyTitleGo, pyLower_idem]

theorem nompropio_mask (l : List Nat) :
    (nompropio_like_excel l).map ws = l.map ws := by
  unfold nompropio_like_excel
  rw [pyTitleGo_mask, pyLower_mask]

/-! ### goodChar preservation -/

theorem good_32 : goodChar 32 :=
  ⟨Or.inr (by decide), by decide, by decide, by decide⟩

theorem good_toLower {n : Nat} (h : goodChar n) : goodChar (toLowerCode n) := by
  obtain ⟨hclass, hlk, h160, h8239⟩ := h
  unfold toLowerCode
  by_cases hc : 65 ≤ n ∧ n ≤ 90
  · rw [if_pos hc]
    refine ⟨Or.inl ?_, nfkd_lookup_small (by omega), by omega, by omega⟩
    simp only [isAlnumCode, isDig, isAlphaCode, Bool.or_eq_true,
      decide_eq_true_eq]
    omega
  · rw [if_neg hc]
    exact ⟨hclass, hlk, h160, h8239⟩

theorem good_toUpper {n : Nat} (h : goodChar n) : goodChar (toUpperCode n) := by
  obtain ⟨hclass, hlk, h160, h8239⟩ := h
  unfold toUpperCode
  by_cases hc : 97 ≤ n ∧ n ≤ 122
  · rw [if_pos hc]
    refine ⟨Or.inl ?_, nfkd_lookup_small (by omega), by omega, by omega⟩
    simp only [isAlnumCode, isDig, isAlphaCode, Bool.or_eq_true,
      decide_eq_true_eq]
    omega
  · rw [if_neg hc]
    exact ⟨hclass, hlk, h160, h8239⟩

theorem pyTitleGo_mem {prev : Bool} {l : List Nat} {n : Nat}
    (h : n ∈ pyTitleGo prev l) :
    ∃ c ∈ l, n = toLowerCode c ∨ n = toUpperCode c ∨ n = c := by
  induction l generalizing prev with
  | nil => cases h
  | cons c t ih =>
    simp only [pyTitleGo] at h
    rcases List.mem_cons.mp h with h1 | h1
    · refine ⟨c, List.mem_cons_self c t, ?_⟩
      by_cases hc : isCased c = true
      · rw [if_pos hc] at h1
        by_cases hp : prev = true
        · rw [if_pos hp] at h1; exact Or.inl h1
        · rw [if_neg hp] at h1; exact Or.inr (Or.inl h1)
      · rw [if_neg hc] at h1; exact Or.inr (Or.inr h1)
    · obtain ⟨c', hc', hn⟩ := ih h1
      exact ⟨c', List.mem_cons_of_mem c hc', hn⟩

theorem nompropio_good {l : List Nat} (h : ∀ n ∈ l, goodChar n) :
    ∀ n ∈ nompropio_like_excel l, goodChar n := by
  intro n hn
  obtain ⟨c, hc, hcase⟩ := pyTitleGo_mem hn
  obtain ⟨m, hm, hmc⟩ := List.mem_map.mp hc
  have hgood : goodChar c := hmc ▸ good_toLower (h m hm)
  rcases hcase with h1 | h1 | h1
  · exact h1 ▸ good_toLower hgood
  · exact h1 ▸ good_toUpper hgood
  · exact h1 ▸ hgood

/-! ### The generic-text pipeline in normal form -/

theorem scrub_signs_mem {l : List Nat} {n : Nat} (h : n ∈ scrub_signs l) :
    n = 32 ∨ n ∈ l := by
  obtain ⟨m, hm, hfm⟩ := List.mem_map.mp h
  by_cases hd : disallowed m = true
  · rw [if_pos hd] at hfm; exact Or.inl hfm.symm
  · rw [if_neg hd] at hfm; exact Or.inr (hfm ▸ hm)

theorem scrub_other_mem {l : List Nat} {n : Nat} (h : n ∈ scrub_other l) :
    (isAlnumCode n = true ∨ ws n = true) ∧ (n = 32 ∨ n ∈ l) := by
  obtain ⟨m, hm, hfm⟩ := List.mem_map.mp h
  by_cases hc : (isAlnumCode m || ws m) = true
  · rw [if_pos hc] at hfm
    subst hfm
    exact ⟨by simpa using hc, Or.inr hm⟩
  · rw [if_neg hc] at hfm
    refine ⟨?_, Or.inl hfm.symm⟩
    rw [← hfm]
    exact Or.inr (by decide)

theorem baseStrip_chars {v : List Nat} :
    ∀ n ∈ baseStrip v, n ≠ 160 ∧ n ≠ 8239 := by
  intro n hn
  have h := remove_invisibles_mem (pyStrip_mem hn)
  exact ⟨h.2.1, h.2.2.1⟩

theorem ctg_scrub_good {l : List Nat} (hl : ∀ n ∈ l, n ≠ 160 ∧ n ≠ 8239) :
    ∀ n ∈ ctg_scrub l, goodChar n := by
  intro n hn
  unfold ctg_scrub at hn
  have h1 := pyStrip_mem hn
  rcases csGo_mem false _ n h1 with h2 | h2
  · obtain ⟨hclass, h3⟩ := scrub_other_mem h2
    rcases h3 with h4 | h4
    · exact h4 ▸ good_32
    · rcases scrub_signs_mem h4 with h5 | h5
      · exact h5 ▸ good_32
      · obtain ⟨hcomb, hlk, hin⟩ := strip_accents_mem h5
        rcases hin with h6 | h6
        · exact ⟨hclass, hlk, (hl n h6).1, (hl n h6).2⟩
        · exact ⟨hclass, hlk, h6.1, h6.2⟩
  · exact h2 ▸ good_32

theorem noDouble_pyStrip {l : List Nat} (h : noDoubleWs l = true) :
    noDoubleWs (pyStrip l) = true := by
  unfold pyStrip
  have h1 : noDoubleWs (List.takeWhile ws l ++ trimLeft l) = true := by
    rw [show List.takeWhile ws l ++ trimLeft l = l from
      List.takeWhile_append_dropWhile ws l]
    exact h
  have h2 := noDouble_append_left h1
  obtain ⟨t, ht⟩ := trimRight_eq_append (trimLeft l)
  have h3 : noDoubleWs (trimRight (trimLeft l) ++ t) = true := by
    rw [← ht]; exact h2
  exact noDouble_append_right h3

theorem ctg_output_normal (p : Bool) (val : Option (List Nat)) :
    (∀ n ∈ clean_text_general p val, goodChar n) ∧
    noDoubleWs (clean_text_general p val) = true ∧
    headWs (clean_text_general p val) = false ∧
    lastWs (clean_text_general p val) = false := by
  match val with
  | none => exact ⟨fun n h => absurd h (List.not_mem_nil n), rfl, rfl, rfl⟩
  | some v =>
    simp only [clean_text_general]
    by_cases h0 : baseStrip v = []
    · rw [if_pos h0]
      exact ⟨fun n h => absurd h (List.not_mem_nil n), rfl, rfl, rfl⟩
    · rw [if_neg h0]
      by_cases hb : p = true ∧ ctg_scrub (baseStrip v) ≠ []
      · rw [if_pos hb]
        refine ⟨nompropio_good (ctg_scrub_good baseStrip_chars), ?_, ?_, ?_⟩
        · rw [noDouble_congr_mask (nompropio_mask _)]
          exact noDouble_pyStrip (csGo_noDouble false _)
        · rw [headWs_congr_mask (nompropio_mask _)]
          exact headWs_pyStrip _
        · rw [lastWs_congr_mask (nompropio_mask _)]
          exact lastWs_pyStrip _
      · rw [if_neg hb]
        exact ⟨ctg_scrub_good baseStrip_chars,
          noDouble_pyStrip (csGo_noDouble false _), headWs_pyStrip _,
          lastWs_pyStrip _⟩

theorem ri_eq_self {l : List Nat}
    (h : ∀ n ∈ l, n ≠ 160 ∧ n ≠ 8239 ∧ invisible n = false) :
    remove_invisibles l = l := by
  unfold remove_invisibles
  have hm : l.map (fun n => if n = 160 ∨ n = 8239 then 32 else n) = l := by
    conv_rhs => rw [← List.map_id l]
    exact List.map_congr_left fun a ha =>
      if_neg (by obtain ⟨ha1, ha2, _⟩ := h a ha; tauto)
  rw [hm]
  exact List.filter_eq_self.mpr fun a ha => by simp [(h a ha).2.2]

theorem scrub_signs_eq_self {l : List Nat}
    (h : ∀ n ∈ l, disallowed n = false) : scrub_signs l = l := by
  unfold scrub_signs
  conv_rhs => rw [← List.map_id l]
  exact List.map_congr_left fun a ha => by simp [h a ha]

theorem scrub_other_eq_self {l : List Nat}
    (h : ∀ n ∈ l, (isAlnumCode n || ws n) = true) : scrub_other l = l := by
  unfold scrub_other
  conv_rhs => rw [← List.map_id l]
  exact List.map_congr_left fun a ha => by simp [h a ha]

theorem ctg_scrub_eq_self {l : List Nat} (hg : ∀ n ∈ l, goodChar n)
    (hd : noDoubleWs l = true) (h1 : headWs l = false)
    (h2 : lastWs l = false) : ctg_scrub l = l := by
  unfold ctg_scrub
  rw [strip_accents_eq_self fun n hn =>
      ⟨(hg n hn).2.1, class_not_combining (hg n hn).1⟩,
    scrub_signs_eq_self fun n hn => class_not_disallowed (hg n hn).1,
    scrub_other_eq_self fun n hn => by rcases (hg n hn).1 with h | h <;> simp [h],
    show collapse_spaces l = l from csGo_eq_self hd,
    pyStrip_eq_self h1 h2]

theorem ctg_fix (p : Bool) {l : List Nat}
    (hg : ∀ n ∈ l, goodChar n) (hd : noDoubleWs l = true)
    (h1 : headWs l = false) (h2 : lastWs l = false) :
    clean_text_general p (some l) =
      if p = true ∧ l ≠ [] then nompropio_like_excel l else l := by
  have hri : remove_invisibles l = l := ri_eq_self fun n hn =>
    ⟨(hg n hn).2.2.1, (hg n hn).2.2.2, class_not_invisible (hg n hn).1⟩
  have hbs : baseStrip l = l := by
    unfold baseStrip
    rw [hri, pyStrip_eq_self h1 h2]
  simp only [clean_text_general]
  rw [hbs, ctg_scrub_eq_self hg hd h1 h2]
  by_cases hl : l = []
  · subst hl
    simp
  · rw [if_neg hl]

theorem ctg_shape (val : Option (List Nat)) :
    clean_text_general true val = [] ∨
      ∃ s, clean_text_general true val = nompropio_like_excel s := by
  match val with
  | none => exact Or.inl rfl
  | some v =>
    simp only [clean_text_general]
    by_cases h0 : baseStrip v = []
    · rw [if_pos h0]; exact Or.inl rfl
    · rw [if_neg h0]
      by_cases hb : ctg_scrub (baseStrip v) = []
      · rw [if_neg (by simp [hb])]
        exact Or.inl hb
      · rw [if_pos ⟨trivial, hb⟩]
        exact Or.inr ⟨_, rfl⟩

/-! ### Claims C2 and C9 -/

/-- Counterexample for C2: on `"a\tb"` the generic-text cleaner returns
`"A\tB"`, whose middle character is a tab — a whitespace character other
than the ASCII space — so the output is not made of ASCII letters,
digits and spaces only. -/
theorem C2_counterexample :
    clean_text_general true (some (codes "a\tb")) = codes "A\tB" ∧
    ¬(∀ n ∈ clean_text_general true (some (codes "a\tb")),
        isAlnumCode n = true ∨ n = 32) := by
  constructor
  · decide
  · decide

/-- Claim C2 (amended): for every input and either proper-casing
configuration, the generic-text cleaner's output consists only of ASCII
letters, ASCII digits and whitespace characters, with no leading or
trailing whitespace and no two adjacent whitespace characters; a run of
two or more whitespace characters always collapses to one space, but a
single interior whitespace character other than the space (such as a
tab) survives unchanged. -/
theorem C2_output_charset :
    ∀ (p : Bool) (val : Option (List Nat)),
      (∀ n ∈ clean_text_general p val,
        isAlnumCode n = true ∨ ws n = true) ∧
      headWs (clean_text_general p val) = false ∧
      lastWs (clean_text_general p val) = false ∧
      noDoubleWs (clean_text_general p val) = true := by
  intro p val
  obtain ⟨hg, hd, h1, h2⟩ := ctg_output_normal p val
  exact ⟨fun n hn => (hg n hn).1, h1, h2, hd⟩

/-- Witness for C2 (amended): the character class applied to the first
character of the cleaned `"a b"`. -/
theorem C2_witness :
    (isAlnumCode 65 = true ∨ ws 65 = true) ∧
    headWs (clean_text_general true (some (codes "a b"))) = false :=
  ⟨(C2_output_charset true (some (codes "a b"))).1 65 (by decide),
   (C2_output_charset true (some (codes "a b"))).2.1⟩

/-- Claim C9: the generic-text cleaner is idempotent — feeding its own
output back through it, under the same proper-casing configuration,
returns the output unchanged. -/
theorem C9_idempotent :
    ∀ (p : Bool) (val : Option (List Nat)),
      clean_text_general p (some (clean_text_general p val)) =
        clean_text_general p val := by
  intro p val
  obtain ⟨hg, hd, h1, h2⟩ := ctg_output_normal p val
  rw [ctg_fix p hg hd h1 h2]
  by_cases hc : p = true ∧ clean_text_general p val ≠ []
  · rw [if_pos hc]
    obtain ⟨hp, hne⟩ := hc
    subst hp
    rcases ctg_shape val with h | ⟨s, hs⟩
    · exact absurd h hne
    · rw [hs, nompropio_idem]
  · rw [if_neg hc]
